import Mathlib

/-!
Shallow embedding of src/amm/uniswap_v3_customized/batch_request/mod.rs.

The embedding keeps the source's structure: ethabi token values become the
inductive Token; the ethers U256/I256 narrowing casts become explicit
functions on Nat/Int with panics modelled as a distinct outcome; the two
entry points get_v3_pool_data_batch_request and get_amm_data_batch_request
become state-passing functions over an explicit registry list, with the
ABI byte-level decoder (an external dependency of the repository) treated
as an abstract parameter delivering either a token list or a decode error.
-/

/-- Model of ethabi token values as produced by ethers::abi::decode.
Address payloads and 256-bit words are natural numbers; an Int token
carries the raw 256-bit word (ethabi's Token::Int stores a U256). -/
inductive Token where
  | address (a : Nat)
  | uint (v : Nat)
  | int (w : Nat)
  | tuple (ts : List Token)
  | array (ts : List Token)

/-- ethabi Token::into_address: some only for an Address token. -/
def Token.into_address : Token → Option Nat
  | .address a => some a
  | _ => none

/-- ethabi Token::into_uint: some only for a Uint token. -/
def Token.into_uint : Token → Option Nat
  | .uint v => some v
  | _ => none

/-- ethabi Token::into_int: some only for an Int token; yields the raw word. -/
def Token.into_int : Token → Option Nat
  | .int w => some w
  | _ => none

/-- ethabi Token::into_tuple: some only for a Tuple token. -/
def Token.into_tuple : Token → Option (List Token)
  | .tuple ts => some ts
  | _ => none

/-- ethabi Token::into_array: some only for an Array token. -/
def Token.into_array : Token → Option (List Token)
  | .array ts => some ts
  | _ => none

/-- Outcome of one field mapping step in populate_pool_data_from_tokens:
panic models a Rust panic (index out of bounds or an overflowing as_uNN /
as_iNN cast), noneR models the question-mark early return of None, okR a
successful value. -/
inductive FieldRes (α : Type) where
  | panic
  | noneR
  | okR (a : α)
  deriving DecidableEq

/-- Sequencing of field mapping steps (panic and None short-circuit). -/
def FieldRes.bind {α β : Type} : FieldRes α → (α → FieldRes β) → FieldRes β
  | .panic, _ => .panic
  | .noneR, _ => .noneR
  | .okR a, f => f a

/-- Mapping over a successful outcome. -/
def FieldRes.map {α β : Type} (f : α → β) : FieldRes α → FieldRes β
  | .panic => .panic
  | .noneR => .noneR
  | .okR a => .okR (f a)

/-- Vec indexing tokens[i] (source lines 28-36): panics when out of bounds. -/
def getTok (tokens : List Token) (i : Nat) : FieldRes Token :=
  match tokens[i]? with
  | none => .panic
  | some t => .okR t

/-- ethers U256::as_u32 followed by the Rust cast as u8 (source lines 29, 31):
as_u32 panics when the value exceeds u32::MAX, and the as u8 cast truncates
to the low 8 bits. -/
def as_u32_as_u8 (v : Nat) : FieldRes Nat :=
  if v < 2 ^ 32 then .okR (v % 2 ^ 8) else .panic

/-- ethers U256::as_u128 (source line 32): panics above u128::MAX. -/
def as_u128 (v : Nat) : FieldRes Nat :=
  if v < 2 ^ 128 then .okR v else .panic

/-- ethers U256::as_u64 followed by the Rust cast as u32 (source line 36):
as_u64 panics above u64::MAX, the as u32 cast truncates to 32 bits. -/
def as_u64_as_u32 (v : Nat) : FieldRes Nat :=
  if v < 2 ^ 64 then .okR (v % 2 ^ 32) else .panic

/-- ethers I256::from_raw: reinterpret a 256-bit word as two's complement. -/
def i256_from_raw (w : Nat) : Int :=
  if w < 2 ^ 255 then (w : Int) else (w : Int) - 2 ^ 256

/-- ethers I256::as_i32: panics when the value is outside the i32 range. -/
def as_i32 (v : Int) : FieldRes Int :=
  if -(2 ^ 31) ≤ v ∧ v < 2 ^ 31 then .okR v else .panic

/-- The tick / tickSpacing mapping chain of source lines 34-35:
I256::from_raw(word).as_i32(). -/
def mapInt24Field (w : Nat) : FieldRes Int :=
  as_i32 (i256_from_raw w)

/-- Field chain tokens[i].into_address()? (source lines 28, 30). -/
def fieldAddress (t : Token) : FieldRes Nat :=
  match t.into_address with
  | none => .noneR
  | some a => .okR a

/-- Field chain tokens[i].into_uint()?.as_u32() as u8 (source lines 29, 31). -/
def fieldDecimals (t : Token) : FieldRes Nat :=
  match t.into_uint with
  | none => .noneR
  | some v => as_u32_as_u8 v

/-- Field chain tokens[4].into_uint()?.as_u128() (source line 32). -/
def fieldLiquidity (t : Token) : FieldRes Nat :=
  match t.into_uint with
  | none => .noneR
  | some v => as_u128 v

/-- Field chain tokens[5].into_uint()? kept at full U256 width (source line 33). -/
def fieldUintRaw (t : Token) : FieldRes Nat :=
  match t.into_uint with
  | none => .noneR
  | some v => .okR v

/-- Field chain I256::from_raw(tokens[i].into_int()?).as_i32() (lines 34-35). -/
def fieldInt24 (t : Token) : FieldRes Int :=
  match t.into_int with
  | none => .noneR
  | some w => mapInt24Field w

/-- Field chain tokens[8].into_uint()?.as_u64() as u32 (source line 36). -/
def fieldFee (t : Token) : FieldRes Nat :=
  match t.into_uint with
  | none => .noneR
  | some v => as_u64_as_u32 v

/-- The pool state mutated by the batch request module. Fields are the ones
read and written in src (source lines 28-36); widths follow the casts there:
decimals are 8-bit, liquidity 128-bit, sqrt_price a full 256-bit word,
tick and tick_spacing signed 32-bit, fee 32-bit. The address field is the
pool's identity and is never written by populate_pool_data_from_tokens. -/
structure UniswapV3PoolCustomized where
  address : Nat
  token_a : Nat
  token_a_decimals : Nat
  token_b : Nat
  token_b_decimals : Nat
  liquidity : Nat
  sqrt_price : Nat
  tick : Int
  tick_spacing : Int
  fee : Nat
  deriving DecidableEq

/-- The nine raw field values one record contributes, in source order. -/
structure RawFields where
  token_a : Nat
  token_a_decimals : Nat
  token_b : Nat
  token_b_decimals : Nat
  liquidity : Nat
  sqrt_price : Nat
  tick : Int
  tick_spacing : Int
  fee : Nat
  deriving DecidableEq

/-- populate_pool_data_from_tokens (source lines 24-39): reads the first nine
fields of one decoded record in order, converting each with the source's
cast chain; any into_xxx failure returns None for the whole record, any
overflowing cast or out-of-bounds index panics; on success every mapped
field of the pool is replaced at once. tokens[9] (liquidityNet) is never
read. -/
def populate_pool_data_from_tokens (pool : UniswapV3PoolCustomized)
    (tokens : List Token) : FieldRes UniswapV3PoolCustomized :=
  (getTok tokens 0).bind fun t0 =>
  (fieldAddress t0).bind fun a0 =>
  (getTok tokens 1).bind fun t1 =>
  (fieldDecimals t1).bind fun d1 =>
  (getTok tokens 2).bind fun t2 =>
  (fieldAddress t2).bind fun a2 =>
  (getTok tokens 3).bind fun t3 =>
  (fieldDecimals t3).bind fun d3 =>
  (getTok tokens 4).bind fun t4 =>
  (fieldLiquidity t4).bind fun l4 =>
  (getTok tokens 5).bind fun t5 =>
  (fieldUintRaw t5).bind fun s5 =>
  (getTok tokens 6).bind fun t6 =>
  (fieldInt24 t6).bind fun k6 =>
  (getTok tokens 7).bind fun t7 =>
  (fieldInt24 t7).bind fun k7 =>
  (getTok tokens 8).bind fun t8 =>
  (fieldFee t8).bind fun f8 =>
  .okR { pool with
          token_a := a0, token_a_decimals := d1, token_b := a2,
          token_b_decimals := d3, liquidity := l4, sqrt_price := s5,
          tick := k6, tick_spacing := k7, fee := f8 }

/-- The same nine-field extraction chain, detached from any pool value. -/
def extractFields (tokens : List Token) : FieldRes RawFields :=
  (getTok tokens 0).bind fun t0 =>
  (fieldAddress t0).bind fun a0 =>
  (getTok tokens 1).bind fun t1 =>
  (fieldDecimals t1).bind fun d1 =>
  (getTok tokens 2).bind fun t2 =>
  (fieldAddress t2).bind fun a2 =>
  (getTok tokens 3).bind fun t3 =>
  (fieldDecimals t3).bind fun d3 =>
  (getTok tokens 4).bind fun t4 =>
  (fieldLiquidity t4).bind fun l4 =>
  (getTok tokens 5).bind fun t5 =>
  (fieldUintRaw t5).bind fun s5 =>
  (getTok tokens 6).bind fun t6 =>
  (fieldInt24 t6).bind fun k6 =>
  (getTok tokens 7).bind fun t7 =>
  (fieldInt24 t7).bind fun k7 =>
  (getTok tokens 8).bind fun t8 =>
  (fieldFee t8).bind fun f8 =>
  .okR ⟨a0, d1, a2, d3, l4, s5, k6, k7, f8⟩

/-- Writing one extracted record into a pool: all nine mapped fields are
replaced together and the identity field address is preserved. -/
def applyRawFields (pool : UniswapV3PoolCustomized) (v : RawFields) :
    UniswapV3PoolCustomized :=
  { pool with
      token_a := v.token_a, token_a_decimals := v.token_a_decimals,
      token_b := v.token_b, token_b_decimals := v.token_b_decimals,
      liquidity := v.liquidity, sqrt_price := v.sqrt_price,
      tick := v.tick, tick_spacing := v.tick_spacing, fee := v.fee }

/-- Modelled from the spec (section 3 PoolRegistry): the AMM enum of the
repository is defined outside src/; src only matches on its
UniswapV3PoolCustomized variant, so every other pool kind is collapsed
into an opaque otherKind variant distinguished by a tag. -/
inductive AMM where
  | uniswapV3PoolCustomized (p : UniswapV3PoolCustomized)
  | otherKind (tag : Nat)
  deriving DecidableEq

/-- Errors produced by the module. batchRequestError models
AMMError::BatchRequestError(address) (source lines 78, 81);
abiDecodeError models the ethabi decode error propagated by the
question-mark operator at source lines 70 and 125. -/
inductive AMMError where
  | batchRequestError (addr : Nat)
  | abiDecodeError
  deriving DecidableEq

/-- Outcome of a code path that can abort the process: panic models a Rust
panic (the expect at source line 139, or a cast overflow inside
populate_pool_data_from_tokens). -/
inductive PResult (α : Type) where
  | panic
  | ok (a : α)
  deriving DecidableEq

/-- Mapping over a non-panicking outcome. -/
def PResult.map {α β : Type} (f : α → β) : PResult α → PResult β
  | .panic => .panic
  | .ok a => .ok (f a)

/-- The effect of one decoded record on the single registry entry it is
aligned with (source lines 133-152, entry-level view): an empty tuple
panics at pool_data[0]; a non-address or zero first field skips; a
mismatched pool kind skips; otherwise populate_pool_data_from_tokens
either panics, silently skips on None, or replaces the entry. -/
def applyRecordEntry (entry : AMM) (fields : List Token) : PResult AMM :=
  match fields[0]? with
  | none => .panic
  | some f0 =>
    match f0.into_address with
    | none => .ok entry
    | some a =>
      if a = 0 then .ok entry
      else
        match entry with
        | .otherKind t => .ok (.otherKind t)
        | .uniswapV3PoolCustomized p =>
          match populate_pool_data_from_tokens p fields with
          | .panic => .panic
          | .noneR => .ok entry
          | .okR p2 => .ok (.uniswapV3PoolCustomized p2)

/-- The body of the record loop of get_amm_data_batch_request for one tuple
record (source lines 133-152): pool_data[0] indexing panics on an empty
tuple; a failed into_address or a zero address leaves the registry alone;
amms.get_mut(pool_idx).expect(..) panics when pool_idx is out of bounds;
a non-matching registry variant is skipped; populate_pool_data_from_tokens
None is skipped, and a success overwrites the entry in place. -/
def processRecord (amms : List AMM) (idx : Nat) (fields : List Token) :
    PResult (List AMM) :=
  match fields[0]? with
  | none => .panic
  | some f0 =>
    match f0.into_address with
    | none => .ok amms
    | some a =>
      if a = 0 then .ok amms
      else
        match amms[idx]? with
        | none => .panic
        | some (AMM.otherKind _) => .ok amms
        | some (AMM.uniswapV3PoolCustomized p) =>
          match populate_pool_data_from_tokens p fields with
          | .panic => .panic
          | .noneR => .ok amms
          | .okR p2 => .ok (amms.set idx (AMM.uniswapV3PoolCustomized p2))

/-- The inner record loop of get_amm_data_batch_request (source lines
132-153): walks the decoded array, threading the registry and pool_idx;
non-tuple elements are skipped without advancing pool_idx, tuple elements
run processRecord and then advance pool_idx. -/
def updateLoop : List AMM → Nat → List Token → PResult (List AMM × Nat)
  | amms, idx, [] => .ok (amms, idx)
  | amms, idx, t :: rest =>
    match t.into_tuple with
    | none => updateLoop amms idx rest
    | some fields =>
      match processRecord amms idx fields with
      | .panic => .panic
      | .ok amms2 => updateLoop amms2 (idx + 1) rest

/-- The outer loop of get_amm_data_batch_request over the decode output
(source lines 130-155): non-array tokens are skipped, array tokens run the
record loop; pool_idx persists across outer iterations. -/
def outerLoop : List AMM → Nat → List Token → PResult (List AMM × Nat)
  | amms, idx, [] => .ok (amms, idx)
  | amms, idx, t :: rest =>
    match t.into_array with
    | none => outerLoop amms idx rest
    | some arr =>
      match updateLoop amms idx arr with
      | .panic => .panic
      | .ok (amms2, idx2) => outerLoop amms2 idx2 rest

/-- get_amm_data_batch_request (source lines 95-160) after the batch call:
the ABI decode of the returned bytes is passed in as an abstract result
(the byte-level decoder is the external ethabi dependency). A decode error
is propagated by the question-mark operator before any registry mutation;
a successful decode runs the update loops and returns Ok. The returned
pair carries the final registry state next to the Result value, since the
Rust function mutates the slice in place. -/
def get_amm_data_batch_request (amms : List AMM)
    (decodeResult : Except Unit (List Token)) :
    PResult (List AMM × Except AMMError Unit) :=
  match decodeResult with
  | .error _ => .ok (amms, .error AMMError.abiDecodeError)
  | .ok toks =>
    match outerLoop amms 0 toks with
    | .panic => .panic
    | .ok (amms2, _) => .ok (amms2, .ok ())

/-- The inner record loop of get_v3_pool_data_batch_request (source lines
75-82): a non-tuple element or a populate_pool_data_from_tokens None
aborts with BatchRequestError(pool.address) leaving the pool at its
current value; a success overwrites the whole pool and continues. -/
def singleInner : UniswapV3PoolCustomized → List Token →
    PResult (UniswapV3PoolCustomized × Except AMMError Unit)
  | pool, [] => .ok (pool, .ok ())
  | pool, t :: rest =>
    match t.into_tuple with
    | none => .ok (pool, .error (AMMError.batchRequestError pool.address))
    | some fields =>
      match populate_pool_data_from_tokens pool fields with
      | .panic => .panic
      | .noneR => .ok (pool, .error (AMMError.batchRequestError pool.address))
      | .okR p2 => singleInner p2 rest

/-- The outer loop of get_v3_pool_data_batch_request (source lines 73-84):
non-array tokens are skipped; an error from the inner loop propagates
immediately (the question-mark operator returns from the function). -/
def singleOuter : UniswapV3PoolCustomized → List Token →
    PResult (UniswapV3PoolCustomized × Except AMMError Unit)
  | pool, [] => .ok (pool, .ok ())
  | pool, t :: rest =>
    match t.into_array with
    | none => singleOuter pool rest
    | some arr =>
      match singleInner pool arr with
      | .panic => .panic
      | .ok (p2, .error e) => .ok (p2, .error e)
      | .ok (p2, .ok ()) => singleOuter p2 rest

/-- get_v3_pool_data_batch_request (source lines 41-86) after the batch
call, with the external ABI decode passed in as an abstract result: a
decode error propagates before any mutation of the pool. -/
def get_v3_pool_data_batch_request (pool : UniswapV3PoolCustomized)
    (decodeResult : Except Unit (List Token)) :
    PResult (UniswapV3PoolCustomized × Except AMMError Unit) :=
  match decodeResult with
  | .error _ => .ok (pool, .error AMMError.abiDecodeError)
  | .ok toks => singleOuter pool toks

/-- Model of the ethabi ParamType shapes used by the module. -/
inductive ParamType where
  | address
  | uint (n : Nat)
  | int (n : Nat)
  | array (t : ParamType)
  | tuple (ts : List ParamType)

/-- The decode schema passed to ethers::abi::decode, identical at source
lines 56-70 and 111-125: one array of ten-field positional tuples. -/
def poolDataSchema : List ParamType :=
  [ParamType.array (ParamType.tuple
    [ParamType.address, ParamType.uint 8, ParamType.address, ParamType.uint 8,
     ParamType.uint 128, ParamType.uint 160, ParamType.int 24, ParamType.int 24,
     ParamType.uint 24, ParamType.int 128])]

/-- Modelled from the ABI wire format (spec section 6, external interface):
the ABI encoding of an int24 value sign-extends the 24-bit two's-complement
quantity into the 256-bit word. The argument is the 24-bit wire pattern. -/
def abiWordOfInt24 (w : Nat) : Nat :=
  if w < 2 ^ 23 then w else w + (2 ^ 256 - 2 ^ 24)

/-- The signed integer denoted by a 24-bit two's-complement wire pattern. -/
def int24ToSigned (w : Nat) : Int :=
  if w < 2 ^ 23 then (w : Int) else (w : Int) - 2 ^ 24

/-- A concrete pool with address 1 and zeroed data fields. -/
def exPool : UniswapV3PoolCustomized :=
  { address := 1, token_a := 0, token_a_decimals := 0, token_b := 0,
    token_b_decimals := 0, liquidity := 0, sqrt_price := 0, tick := 0,
    tick_spacing := 0, fee := 0 }

/-- A second concrete pool with address 2. -/
def exPoolB : UniswapV3PoolCustomized :=
  { address := 2, token_a := 0, token_a_decimals := 0, token_b := 0,
    token_b_decimals := 0, liquidity := 0, sqrt_price := 0, tick := 0,
    tick_spacing := 0, fee := 0 }

/-- A concrete well-formed ten-field record with a non-zero first address. -/
def exRecord : List Token :=
  [Token.address 7, Token.uint 18, Token.address 8, Token.uint 6,
   Token.uint 1000, Token.uint 2000, Token.int 5, Token.int 60,
   Token.uint 500, Token.int 0]

/-- The pool state exRecord maps exPool to. -/
def exPoolAfter : UniswapV3PoolCustomized :=
  { address := 1, token_a := 7, token_a_decimals := 18, token_b := 8,
    token_b_decimals := 6, liquidity := 1000, sqrt_price := 2000, tick := 5,
    tick_spacing := 60, fee := 500 }

/-- A concrete record whose first address field is the zero address. -/
def exRecordZero : List Token :=
  [Token.address 0, Token.uint 18, Token.address 8, Token.uint 6,
   Token.uint 1000, Token.uint 2000, Token.int 5, Token.int 60,
   Token.uint 500, Token.int 0]

/-- A concrete record whose decimals field carries 256, one above the 8-bit
range. -/
def exRecordDec256 : List Token :=
  [Token.address 7, Token.uint 256, Token.address 8, Token.uint 6,
   Token.uint 1000, Token.uint 2000, Token.int 5, Token.int 60,
   Token.uint 500, Token.int 0]

/-- A concrete malformed record: the first field is not an address token,
so populate_pool_data_from_tokens fails with None on it. -/
def exRecordBad : List Token :=
  [Token.uint 5]

/-! Helper lemmas. -/

@[simp] theorem FieldRes.bind_panic {α β : Type} (f : α → FieldRes β) :
    FieldRes.bind .panic f = .panic := rfl

@[simp] theorem FieldRes.bind_noneR {α β : Type} (f : α → FieldRes β) :
    FieldRes.bind .noneR f = .noneR := rfl

@[simp] theorem FieldRes.bind_okR {α β : Type} (a : α) (f : α → FieldRes β) :
    FieldRes.bind (.okR a) f = f a := rfl

@[simp] theorem FieldRes.map_okR {α β : Type} (f : α → β) (a : α) :
    FieldRes.map f (.okR a) = .okR (f a) := rfl

theorem FieldRes.map_bind {α β γ : Type} (x : FieldRes α)
    (g : α → FieldRes β) (f : β → γ) :
    FieldRes.map f (x.bind g) = x.bind fun a => FieldRes.map f (g a) := by
  cases x <;> rfl

theorem FieldRes.bind_eq_okR {α β : Type} {x : FieldRes α}
    {f : α → FieldRes β} {b : β} (h : x.bind f = .okR b) :
    ∃ a, x = .okR a ∧ f a = .okR b := by
  cases x with
  | panic => exact absurd h (by simp [FieldRes.bind])
  | noneR => exact absurd h (by simp [FieldRes.bind])
  | okR a => exact ⟨a, rfl, h⟩

theorem FieldRes.map_eq_okR {α β : Type} {x : FieldRes α} {f : α → β} {b : β}
    (h : FieldRes.map f x = .okR b) : ∃ a, x = .okR a ∧ f a = b := by
  cases x with
  | panic => exact absurd h (by simp [FieldRes.map])
  | noneR => exact absurd h (by simp [FieldRes.map])
  | okR a => exact ⟨a, rfl, by injection h⟩

/-- populate_pool_data_from_tokens factors as read-all-fields then
write-all-fields: the success value is determined by the record alone and
written into the pool in one step. -/
theorem populate_eq_extract (pool : UniswapV3PoolCustomized)
    (tokens : List Token) :
    populate_pool_data_from_tokens pool tokens
      = FieldRes.map (applyRawFields pool) (extractFields tokens) := by
  unfold populate_pool_data_from_tokens extractFields
  simp only [FieldRes.map_bind, FieldRes.map_okR]
  rfl

/-- When extraction succeeds, the tick and tickSpacing components are the
mapInt24Field images of the raw words found at record positions 6 and 7. -/
theorem extract_okR_tick_fields {tokens : List Token} {v : RawFields}
    (h : extractFields tokens = .okR v) :
    (∀ w, tokens[6]? = some (Token.int w) → mapInt24Field w = .okR v.tick) ∧
    (∀ w, tokens[7]? = some (Token.int w) →
      mapInt24Field w = .okR v.tick_spacing) := by
  unfold extractFields at h
  obtain ⟨t0, e0, h⟩ := FieldRes.bind_eq_okR h
  obtain ⟨a0, f0, h⟩ := FieldRes.bind_eq_okR h
  obtain ⟨t1, e1, h⟩ := FieldRes.bind_eq_okR h
  obtain ⟨d1, f1, h⟩ := FieldRes.bind_eq_okR h
  obtain ⟨t2, e2, h⟩ := FieldRes.bind_eq_okR h
  obtain ⟨a2, f2, h⟩ := FieldRes.bind_eq_okR h
  obtain ⟨t3, e3, h⟩ := FieldRes.bind_eq_okR h
  obtain ⟨d3, f3, h⟩ := FieldRes.bind_eq_okR h
  obtain ⟨t4, e4, h⟩ := FieldRes.bind_eq_okR h
  obtain ⟨l4, f4, h⟩ := FieldRes.bind_eq_okR h
  obtain ⟨t5, e5, h⟩ := FieldRes.bind_eq_okR h
  obtain ⟨s5, f5, h⟩ := FieldRes.bind_eq_okR h
  obtain ⟨t6, e6, h⟩ := FieldRes.bind_eq_okR h
  obtain ⟨k6, f6, h⟩ := FieldRes.bind_eq_okR h
  obtain ⟨t7, e7, h⟩ := FieldRes.bind_eq_okR h
  obtain ⟨k7, f7, h⟩ := FieldRes.bind_eq_okR h
  obtain ⟨t8, e8, h⟩ := FieldRes.bind_eq_okR h
  obtain ⟨f8v, f8, h⟩ := FieldRes.bind_eq_okR h
  injection h with h
  subst h
  constructor
  · intro w hw
    unfold getTok at e6
    rw [hw] at e6
    simp only [] at e6
    injection e6 with e6
    subst e6
    simpa [fieldInt24, Token.into_int] using f6
  · intro w hw
    unfold getTok at e7
    rw [hw] at e7
    simp only [] at e7
    injection e7 with e7
    subst e7
    simpa [fieldInt24, Token.into_int] using f7

theorem getElem?_some_lt {α : Type} : ∀ {l : List α} {i : Nat} {a : α},
    l[i]? = some a → i < l.length
  | _ :: _, 0, _, _ => Nat.succ_pos _
  | _ :: xs, i + 1, _, h =>
    Nat.succ_lt_succ (getElem?_some_lt (l := xs) (i := i)
      (by simpa using h))

theorem list_set_self {α : Type} : ∀ (l : List α) (i : Nat) (a : α),
    l[i]? = some a → l.set i a = l
  | x :: xs, 0, a, h => by
    simp only [List.getElem?_cons_zero, Option.some.injEq] at h
    rw [List.set, h]
  | x :: xs, i + 1, a, h => by
    simp only [List.getElem?_cons_succ] at h
    rw [List.set, list_set_self xs i a h]
  | [], _, _, h => by cases h


theorem processRecord_length {amms : List AMM} {idx : Nat}
    {fields : List Token} {amms2 : List AMM}
    (h : processRecord amms idx fields = .ok amms2) :
    amms2.length = amms.length := by
  unfold processRecord at h
  repeat' split at h
  all_goals first
    | (injection h; done)
    | (injection h with h2; subst h2; simp [List.length_set])

theorem processRecord_get?_ne {amms : List AMM} {idx : Nat}
    {fields : List Token} {amms2 : List AMM} {j : Nat}
    (h : processRecord amms idx fields = .ok amms2) (hj : j ≠ idx) :
    amms2[j]? = amms[j]? := by
  unfold processRecord at h
  repeat' split at h
  all_goals first
    | (injection h; done)
    | (injection h with h2; subst h2; rfl)
    | (injection h with h2; subst h2;
       exact List.getElem?_set_ne (Ne.symm hj))

theorem applyRecordEntry_none0 {fields : List Token} {e : AMM}
    (h0 : fields[0]? = none) : applyRecordEntry e fields = .panic := by
  simp [applyRecordEntry, h0]

theorem applyRecordEntry_noAddr {fields : List Token} {e : AMM} {f0 : Token}
    (h0 : fields[0]? = some f0) (ha : f0.into_address = none) :
    applyRecordEntry e fields = .ok e := by
  simp [applyRecordEntry, h0, ha]

theorem applyRecordEntry_zero {fields : List Token} {e : AMM} {f0 : Token}
    (h0 : fields[0]? = some f0) (ha : f0.into_address = some 0) :
    applyRecordEntry e fields = .ok e := by
  simp [applyRecordEntry, h0, ha]

theorem applyRecordEntry_other {fields : List Token} {t : Nat} {f0 : Token}
    {a : Nat} (h0 : fields[0]? = some f0) (ha : f0.into_address = some a)
    (ha0 : a ≠ 0) :
    applyRecordEntry (.otherKind t) fields = .ok (.otherKind t) := by
  simp [applyRecordEntry, h0, ha, ha0]

theorem applyRecordEntry_pool {fields : List Token}
    {p : UniswapV3PoolCustomized} {f0 : Token} {a : Nat}
    (h0 : fields[0]? = some f0) (ha : f0.into_address = some a)
    (ha0 : a ≠ 0) :
    applyRecordEntry (.uniswapV3PoolCustomized p) fields =
      match populate_pool_data_from_tokens p fields with
      | .panic => .panic
      | .noneR => .ok (.uniswapV3PoolCustomized p)
      | .okR p2 => .ok (.uniswapV3PoolCustomized p2) := by
  simp only [applyRecordEntry, h0, ha]
  rw [if_neg ha0]

theorem processRecord_none0 {amms : List AMM} {idx : Nat}
    {fields : List Token} (h0 : fields[0]? = none) :
    processRecord amms idx fields = .panic := by
  simp [processRecord, h0]

theorem processRecord_noAddr {amms : List AMM} {idx : Nat}
    {fields : List Token} {f0 : Token}
    (h0 : fields[0]? = some f0) (ha : f0.into_address = none) :
    processRecord amms idx fields = .ok amms := by
  simp [processRecord, h0, ha]

theorem processRecord_zero {amms : List AMM} {idx : Nat}
    {fields : List Token} {f0 : Token}
    (h0 : fields[0]? = some f0) (ha : f0.into_address = some 0) :
    processRecord amms idx fields = .ok amms := by
  simp [processRecord, h0, ha]

theorem processRecord_oob {amms : List AMM} {idx : Nat}
    {fields : List Token} {f0 : Token} {a : Nat}
    (h0 : fields[0]? = some f0) (ha : f0.into_address = some a)
    (ha0 : a ≠ 0) (hidx : amms[idx]? = none) :
    processRecord amms idx fields = .panic := by
  simp [processRecord, h0, ha, ha0, hidx]

theorem processRecord_entry_other {amms : List AMM} {idx : Nat}
    {fields : List Token} {f0 : Token} {a : Nat} {t : Nat}
    (h0 : fields[0]? = some f0) (ha : f0.into_address = some a)
    (ha0 : a ≠ 0) (hidx : amms[idx]? = some (AMM.otherKind t)) :
    processRecord amms idx fields = .ok amms := by
  simp only [processRecord, h0, ha]
  rw [if_neg ha0]
  simp only [hidx]

theorem processRecord_entry_pool {amms : List AMM} {idx : Nat}
    {fields : List Token} {f0 : Token} {a : Nat} {p : UniswapV3PoolCustomized}
    (h0 : fields[0]? = some f0) (ha : f0.into_address = some a)
    (ha0 : a ≠ 0) (hidx : amms[idx]? = some (AMM.uniswapV3PoolCustomized p)) :
    processRecord amms idx fields =
      match populate_pool_data_from_tokens p fields with
      | .panic => .panic
      | .noneR => .ok amms
      | .okR p2 => .ok (amms.set idx (AMM.uniswapV3PoolCustomized p2)) := by
  simp only [processRecord, h0, ha]
  rw [if_neg ha0]
  simp only [hidx]

/-- When the walked position exists in the registry, a successful
processRecord step is the entry-level effect of the aligned record written
back in place at that position. -/
theorem processRecord_ok_of_entry {amms : List AMM} {idx : Nat}
    {fields : List Token} {amms2 : List AMM} {e : AMM}
    (he : amms[idx]? = some e)
    (h : processRecord amms idx fields = .ok amms2) :
    ∃ e2, applyRecordEntry e fields = .ok e2 ∧ amms2 = amms.set idx e2 := by
  rcases h0 : fields[0]? with _ | f0
  · rw [processRecord_none0 h0] at h
    exact absurd h (by simp)
  rcases ha : f0.into_address with _ | a
  · rw [processRecord_noAddr h0 ha] at h
    injection h with h
    subst h
    exact ⟨e, applyRecordEntry_noAddr h0 ha, (list_set_self _ _ _ he).symm⟩
  by_cases ha0 : a = 0
  · subst ha0
    rw [processRecord_zero h0 ha] at h
    injection h with h
    subst h
    exact ⟨e, applyRecordEntry_zero h0 ha, (list_set_self _ _ _ he).symm⟩
  cases e with
  | otherKind t =>
    rw [processRecord_entry_other h0 ha ha0 he] at h
    injection h with h
    subst h
    exact ⟨.otherKind t, applyRecordEntry_other h0 ha ha0,
      (list_set_self _ _ _ he).symm⟩
  | uniswapV3PoolCustomized p =>
    rw [processRecord_entry_pool h0 ha ha0 he] at h
    rw [applyRecordEntry_pool h0 ha ha0]
    rcases hp : populate_pool_data_from_tokens p fields with _ | _ | p2 <;>
      rw [hp] at h
    · exact absurd h (by simp)
    · injection h with h
      subst h
      exact ⟨.uniswapV3PoolCustomized p, rfl, (list_set_self _ _ _ he).symm⟩
    · injection h with h
      subst h
      exact ⟨.uniswapV3PoolCustomized p2, rfl, rfl⟩

theorem updateLoop_cons_tuple (amms : List AMM) (idx : Nat)
    (fs : List Token) (rest : List Token) :
    updateLoop amms idx (Token.tuple fs :: rest) =
      match processRecord amms idx fs with
      | .panic => .panic
      | .ok amms2 => updateLoop amms2 (idx + 1) rest := by
  simp [updateLoop, Token.into_tuple]

/-- The positional frame property of the record walk: provided every element
of the decoded array is a tuple and the walk completes without panicking,
the index advances by exactly the record count, the registry keeps its
length, positions outside the walked window are untouched, and the entry
at window position idx + k is exactly the entry-level effect of record k
on the old entry — independent of every other record. -/
theorem updateLoop_frame {recs : List Token} :
    ∀ {amms : List AMM} {idx : Nat} {out : List AMM × Nat},
    (∀ t ∈ recs, ∃ fs, t = Token.tuple fs) →
    updateLoop amms idx recs = .ok out →
    out.2 = idx + recs.length ∧
    out.1.length = amms.length ∧
    (∀ j, j < idx ∨ idx + recs.length ≤ j → out.1[j]? = amms[j]?) ∧
    (∀ k fs e, recs[k]? = some (Token.tuple fs) →
      amms[idx + k]? = some e →
      ∃ e2, applyRecordEntry e fs = .ok e2 ∧ out.1[idx + k]? = some e2) := by
  induction recs with
  | nil =>
    intro amms idx out _ h
    injection h with h
    subst h
    refine ⟨rfl, rfl, fun j _ => rfl, fun k fs e hk _ => ?_⟩
    cases hk
  | cons t rest ih =>
    intro amms idx out hall h
    obtain ⟨fs, rfl⟩ := hall t (List.mem_cons_self t rest)
    rw [updateLoop_cons_tuple] at h
    rcases hp : processRecord amms idx fs with _ | amms2 <;> rw [hp] at h
    · exact absurd h (by simp)
    have hrest : ∀ t2 ∈ rest, ∃ gs, t2 = Token.tuple gs :=
      fun t2 ht2 => hall t2 (List.mem_cons_of_mem _ ht2)
    obtain ⟨ih1, ih2, ih3, ih4⟩ := ih hrest h
    refine ⟨by simp [ih1]; omega, by rw [ih2, processRecord_length hp],
      ?_, ?_⟩
    · intro j hj
      have hlen : (Token.tuple fs :: rest).length = rest.length + 1 := rfl
      rw [hlen] at hj
      have hj2 : j < idx + 1 ∨ idx + 1 + rest.length ≤ j := by omega
      rw [ih3 j hj2]
      exact processRecord_get?_ne hp (by omega)
    · intro k gs e hk he
      cases k with
      | zero =>
        simp only [List.getElem?_cons_zero, Option.some.injEq] at hk
        injection hk.symm with hk2
        subst hk2
        rw [Nat.add_zero] at he
        obtain ⟨e2, hae, rfl⟩ := processRecord_ok_of_entry he hp
        refine ⟨e2, hae, ?_⟩
        rw [Nat.add_zero, ih3 idx (Or.inl (by omega)),
          List.getElem?_set_eq_of_lt _ (getElem?_some_lt he)]
      | succ k =>
        simp only [List.getElem?_cons_succ] at hk
        have he2 : amms2[idx + 1 + k]? = some e := by
          rw [processRecord_get?_ne hp (by omega)]
          rw [show idx + 1 + k = idx + (k + 1) from by omega]
          exact he
        obtain ⟨e2, hae, hout⟩ := ih4 k gs e hk he2
        refine ⟨e2, hae, ?_⟩
        rw [show idx + (k + 1) = idx + 1 + k from by omega]
        exact hout

theorem outerLoop_singleton (amms : List AMM) (recs : List Token) :
    outerLoop amms 0 [Token.array recs] =
      match updateLoop amms 0 recs with
      | .panic => .panic
      | .ok out => .ok out := by
  simp only [outerLoop, Token.into_array]
  rcases updateLoop amms 0 recs with _ | ⟨amms2, idx2⟩ <;> simp [outerLoop]

theorem get_amm_ok_result {amms : List AMM} {toks : List Token}
    {out : List AMM × Except AMMError Unit}
    (h : get_amm_data_batch_request amms (.ok toks) = .ok out) :
    out.2 = .ok () := by
  unfold get_amm_data_batch_request at h
  simp only [] at h
  rcases ho : outerLoop amms 0 toks with _ | ⟨amms2, idx2⟩ <;> rw [ho] at h
  · exact absurd h (by simp)
  · injection h with h
    subst h
    rfl

/-- The code's int24 mapping chain applied to a correctly ABI-encoded
24-bit wire value yields exactly the sign-extended signed value. -/
theorem mapInt24Field_abiWord {w : Nat} (hw : w < 2 ^ 24) :
    mapInt24Field (abiWordOfInt24 w) = .okR (int24ToSigned w) := by
  by_cases h : w < 2 ^ 23
  · have h1 : abiWordOfInt24 w = w := if_pos h
    have h2 : i256_from_raw w = (w : Int) := by
      unfold i256_from_raw
      rw [if_pos (lt_of_lt_of_le h (by norm_num))]
    have h3 : int24ToSigned w = (w : Int) := if_pos h
    rw [mapInt24Field, h1, h2, h3]
    unfold as_i32
    rw [if_pos ?_]
    constructor
    · exact le_trans (by norm_num) (Int.natCast_nonneg w)
    · have hlt : (w : Int) < 2 ^ 23 := by exact_mod_cast h
      exact lt_of_lt_of_le hlt (by norm_num)
  · have h1 : abiWordOfInt24 w = w + (2 ^ 256 - 2 ^ 24) := if_neg h
    have hcast : ((w + (2 ^ 256 - 2 ^ 24) : Nat) : Int)
        = (w : Int) + (2 ^ 256 - 2 ^ 24) := by
      push_cast [Nat.cast_sub (by norm_num : (2 : Nat) ^ 24 ≤ 2 ^ 256)]
      ring
    have h2 : i256_from_raw (w + (2 ^ 256 - 2 ^ 24)) = (w : Int) - 2 ^ 24 := by
      unfold i256_from_raw
      rw [if_neg (not_lt.mpr (le_trans (by norm_num) (Nat.le_add_left _ w)))]
      rw [hcast]
      ring
    have h3 : int24ToSigned w = (w : Int) - 2 ^ 24 := if_neg h
    rw [mapInt24Field, h1, h2, h3]
    unfold as_i32
    rw [if_pos ?_]
    have hge : (2 : Int) ^ 23 ≤ (w : Int) := by
      exact_mod_cast Nat.le_of_not_lt h
    have hlt : (w : Int) < 2 ^ 24 := by exact_mod_cast hw
    constructor
    · norm_num at hge ⊢
      omega
    · norm_num at hlt ⊢
      omega

/-- A successfully mapped record determines the pool's tick and
tick_spacing as the mapInt24Field images of the raw words at record
positions 6 and 7. -/
theorem populate_okR_ticks {pool : UniswapV3PoolCustomized}
    {tokens : List Token} {p2 : UniswapV3PoolCustomized}
    (h : populate_pool_data_from_tokens pool tokens = .okR p2) :
    (∀ w, tokens[6]? = some (Token.int w) → mapInt24Field w = .okR p2.tick) ∧
    (∀ w, tokens[7]? = some (Token.int w) →
      mapInt24Field w = .okR p2.tick_spacing) := by
  rw [populate_eq_extract] at h
  obtain ⟨v, hv, rfl⟩ := FieldRes.map_eq_okR h
  obtain ⟨h6, h7⟩ := extract_okR_tick_fields hv
  exact ⟨fun w hw => h6 w hw, fun w hw => h7 w hw⟩

theorem getElem?_none_le {α : Type} : ∀ {l : List α} {i : Nat},
    l[i]? = none → l.length ≤ i
  | [], i, _ => Nat.zero_le i
  | _ :: _, 0, h => by simp at h
  | _ :: xs, i + 1, h =>
    Nat.succ_le_succ (getElem?_none_le (l := xs) (by simpa using h))

theorem getElem?_none_of_le {α : Type} : ∀ {l : List α} {i : Nat},
    l.length ≤ i → l[i]? = none
  | [], _, _ => by simp
  | _ :: _, 0, h => by simp at h
  | _ :: xs, i + 1, h => by
    simpa using getElem?_none_of_le (l := xs) (Nat.le_of_succ_le_succ h)

theorem populate_panic_of_none0 {pool : UniswapV3PoolCustomized}
    {fields : List Token} (h0 : fields[0]? = none) :
    populate_pool_data_from_tokens pool fields = .panic := by
  unfold populate_pool_data_from_tokens getTok
  rw [h0]
  rfl

theorem applyRecordEntry_otherKind_ok {fields : List Token} {t : Nat}
    {e2 : AMM} (h : applyRecordEntry (.otherKind t) fields = .ok e2) :
    e2 = .otherKind t := by
  rcases h0 : fields[0]? with _ | f0
  · rw [applyRecordEntry_none0 h0] at h
    exact absurd h (by simp)
  rcases ha : f0.into_address with _ | a
  · rw [applyRecordEntry_noAddr h0 ha] at h
    injection h with h2
    exact h2.symm
  by_cases ha0 : a = 0
  · subst ha0
    rw [applyRecordEntry_zero h0 ha] at h
    injection h with h2
    exact h2.symm
  · rw [applyRecordEntry_other h0 ha ha0] at h
    injection h with h2
    exact h2.symm

/-! Claim theorems. -/

/-- C2: whenever the ABI decode of the response blob fails (length or shape
inconsistent with the declared record schema), fetch_many
(get_amm_data_batch_request) returns the decode error and every registry
entry is left completely unchanged — no mutation happens before decode
succeeds. -/
theorem claim_C2_decode_all_or_nothing :
    ∀ (amms : List AMM) (e : Unit),
      get_amm_data_batch_request amms (.error e)
        = .ok (amms, .error AMMError.abiDecodeError) := by
  intro amms e
  rfl

/-- C8: the decoder schema is exactly one array of ten-field positional
tuples in the order address, uint8, address, uint8, uint128, uint160,
int24, int24, uint24, int128, and the tenth field (net liquidity) is part
of the decoded layout but is never consumed by the field mapper: replacing
record position 9 with any token leaves the mapping unchanged. -/
theorem claim_C8_schema_and_unused_tenth_field :
    poolDataSchema = [ParamType.array (ParamType.tuple
      [ParamType.address, ParamType.uint 8, ParamType.address,
       ParamType.uint 8, ParamType.uint 128, ParamType.uint 160,
       ParamType.int 24, ParamType.int 24, ParamType.uint 24,
       ParamType.int 128])] ∧
    ∀ (pool : UniswapV3PoolCustomized) (tokens : List Token) (x : Token),
      populate_pool_data_from_tokens pool (tokens.set 9 x)
        = populate_pool_data_from_tokens pool tokens := by
  refine ⟨rfl, fun pool tokens x => ?_⟩
  have h : ∀ i, i ≠ 9 → getTok (tokens.set 9 x) i = getTok tokens i := by
    intro i hi
    unfold getTok
    rw [List.getElem?_set_ne (Ne.symm hi)]
  unfold populate_pool_data_from_tokens
  simp only [h 0 (by decide), h 1 (by decide), h 2 (by decide),
    h 3 (by decide), h 4 (by decide), h 5 (by decide), h 6 (by decide),
    h 7 (by decide), h 8 (by decide)]

/-- C5 counterexample: the decimals mapper silently truncates an
out-of-8-bit value instead of saturating or failing: the wire value 256
maps to 0 (and the whole record maps successfully with decimals 0). -/
theorem claim_C5_counterexample_truncation :
    fieldDecimals (Token.uint 256) = .okR 0 ∧
    populate_pool_data_from_tokens exPool exRecordDec256
      = .okR { address := 1, token_a := 7, token_a_decimals := 0,
               token_b := 8, token_b_decimals := 6, liquidity := 1000,
               sqrt_price := 2000, tick := 5, tick_spacing := 60,
               fee := 500 } := by
  constructor
  · rfl
  · rfl

/-- C5 amended: a decimals field value that does not fit in 8 bits is
neither saturated nor rejected: values below 2 to the 32 are silently
truncated to their low 8 bits, and larger values abort with a panic
(no recoverable error exists on this path). -/
theorem claim_C5_amended_truncate_or_panic :
    ∀ v : Nat, fieldDecimals (Token.uint v)
      = if v < 2 ^ 32 then .okR (v % 2 ^ 8) else .panic := by
  intro v
  rfl

/-- C10: with more non-zero-address records than registry entries, the
embedded expect on the registry lookup aborts the walk with a panic
instead of returning a recoverable error: one registry entry against two
decoded records panics. -/
theorem claim_C10_oob_lookup_panics :
    get_amm_data_batch_request [AMM.uniswapV3PoolCustomized exPool]
      (.ok [Token.array [Token.tuple exRecord, Token.tuple exRecord]])
      = .panic := by
  rfl

/-- C1 counterexample: with two registry entries and only one decoded
record, fetch_many does not fail at all — it returns Ok, applies the one
record to position 0 and silently stops, leaving position 1 untouched;
no BoundsError is produced (the code has no such error). -/
theorem claim_C1_counterexample_no_bounds_error :
    get_amm_data_batch_request
      [AMM.uniswapV3PoolCustomized exPool, AMM.uniswapV3PoolCustomized exPoolB]
      (.ok [Token.array [Token.tuple exRecord]])
      = .ok ([AMM.uniswapV3PoolCustomized exPoolAfter,
              AMM.uniswapV3PoolCustomized exPoolB], .ok ()) := by
  rfl

/-- C1 amended: when the decoded response contains fewer records than the
registry positions being walked, the call succeeds (returns Ok, never a
bounds error) and the walk silently stops after the decoded records: every
registry entry at or beyond the record count is left untouched. -/
theorem claim_C1_amended_silent_stop :
    ∀ (amms : List AMM) (recs : List Token)
      (out : List AMM × Except AMMError Unit),
      (∀ t ∈ recs, ∃ fs, t = Token.tuple fs) →
      recs.length < amms.length →
      get_amm_data_batch_request amms (.ok [Token.array recs]) = .ok out →
      out.2 = .ok () ∧
      ∀ j, recs.length ≤ j → out.1[j]? = amms[j]? := by
  intro amms recs out hall _ h
  refine ⟨get_amm_ok_result h, ?_⟩
  intro j hj
  unfold get_amm_data_batch_request at h
  simp only [] at h
  rw [outerLoop_singleton] at h
  rcases hu : updateLoop amms 0 recs with _ | out2 <;> rw [hu] at h
  · exact absurd h (by simp)
  obtain ⟨_, _, h3, _⟩ := updateLoop_frame hall hu
  injection h with h
  subst h
  exact h3 j (Or.inr (by omega))

/-- C1 amended witness: concrete two-entry registry, one decoded record:
the entry at position 1 is untouched. -/
theorem claim_C1_amended_silent_stop_witness :
    ([AMM.uniswapV3PoolCustomized exPoolAfter, AMM.otherKind 3] :
        List AMM)[1]?
      = ([AMM.uniswapV3PoolCustomized exPool, AMM.otherKind 3] :
        List AMM)[1]? :=
  (claim_C1_amended_silent_stop
    [AMM.uniswapV3PoolCustomized exPool, AMM.otherKind 3]
    [Token.tuple exRecord]
    ([AMM.uniswapV3PoolCustomized exPoolAfter, AMM.otherKind 3], .ok ())
    (by
      intro t ht
      refine ⟨exRecord, ?_⟩
      simpa using ht)
    (by decide)
    (by rfl)).2 1 (by decide)

/-- C4: the 24-bit signed tick and tickSpacing wire fields are mapped by
sign extension of the 24-bit two's-complement pattern into a signed
32-bit value: the mapping chain succeeds on every ABI-encoded 24-bit
pattern, a set top bit yields a negative value, the results stay inside
-8388608..8388607 including the extremes, and a successfully mapped
record carries exactly these values in its tick and tick_spacing fields. -/
theorem claim_C4_int24_sign_extension :
    ∀ w : Nat, w < 2 ^ 24 →
      mapInt24Field (abiWordOfInt24 w) = .okR (int24ToSigned w) ∧
      (2 ^ 23 ≤ w ↔ int24ToSigned w < 0) ∧
      (-8388608 ≤ int24ToSigned w ∧ int24ToSigned w ≤ 8388607) ∧
      (∀ (pool : UniswapV3PoolCustomized) (tokens : List Token)
        (p2 : UniswapV3PoolCustomized),
        populate_pool_data_from_tokens pool tokens = .okR p2 →
        (tokens[6]? = some (Token.int (abiWordOfInt24 w)) →
          p2.tick = int24ToSigned w) ∧
        (tokens[7]? = some (Token.int (abiWordOfInt24 w)) →
          p2.tick_spacing = int24ToSigned w)) := by
  intro w hw
  refine ⟨mapInt24Field_abiWord hw, ?_, ?_, ?_⟩
  · unfold int24ToSigned
    by_cases h : w < 2 ^ 23
    · rw [if_pos h]
      constructor
      · intro hle
        exact absurd h (by omega)
      · intro hneg
        exact absurd hneg (not_lt.mpr (Int.natCast_nonneg w))
    · rw [if_neg h]
      constructor
      · intro _
        have hlt : (w : Int) < 2 ^ 24 := by exact_mod_cast hw
        omega
      · intro _
        exact Nat.le_of_not_lt h
  · unfold int24ToSigned
    by_cases h : w < 2 ^ 23
    · rw [if_pos h]
      have hlt : (w : Int) < 2 ^ 23 := by exact_mod_cast h
      constructor
      · exact le_trans (by norm_num) (Int.natCast_nonneg w)
      · norm_num at hlt
        omega
    · rw [if_neg h]
      have hge : (2 : Int) ^ 23 ≤ (w : Int) := by
        exact_mod_cast Nat.le_of_not_lt h
      have hlt : (w : Int) < 2 ^ 24 := by exact_mod_cast hw
      norm_num at hge hlt
      omega
  · intro pool tokens p2 hp
    obtain ⟨h6, h7⟩ := populate_okR_ticks hp
    constructor
    · intro hw6
      have h2 := (h6 _ hw6).symm.trans (mapInt24Field_abiWord hw)
      injection h2
    · intro hw7
      have h2 := (h7 _ hw7).symm.trans (mapInt24Field_abiWord hw)
      injection h2

/-- C4 witness: the negative extreme: wire pattern 8388608 (top bit set)
maps to -8388608. -/
theorem claim_C4_int24_sign_extension_witness :
    mapInt24Field (abiWordOfInt24 8388608) = .okR (-8388608) := by
  have h := (claim_C4_int24_sign_extension 8388608 (by norm_num)).1
  rwa [show int24ToSigned 8388608 = -8388608 from by decide] at h

/-- C6: a pool state is never partially updated: the mapper factors as
extract-then-apply, where apply replaces all nine mapped fields together
from the record alone and preserves the identity address; and when the
mapping of a record fails, both the fetch_many record step and the
fetch_single record step leave the pool entry entirely untouched. -/
theorem claim_C6_no_partial_update :
    (∀ (pool : UniswapV3PoolCustomized) (tokens : List Token),
      populate_pool_data_from_tokens pool tokens
        = FieldRes.map (applyRawFields pool) (extractFields tokens)) ∧
    (∀ (pool : UniswapV3PoolCustomized) (v : RawFields),
      applyRawFields pool v =
        { address := pool.address, token_a := v.token_a,
          token_a_decimals := v.token_a_decimals, token_b := v.token_b,
          token_b_decimals := v.token_b_decimals, liquidity := v.liquidity,
          sqrt_price := v.sqrt_price, tick := v.tick,
          tick_spacing := v.tick_spacing, fee := v.fee }) ∧
    (∀ (amms : List AMM) (idx : Nat) (fields : List Token)
      (p : UniswapV3PoolCustomized),
      amms[idx]? = some (AMM.uniswapV3PoolCustomized p) →
      populate_pool_data_from_tokens p fields = .noneR →
      processRecord amms idx fields = .ok amms) ∧
    (∀ (pool : UniswapV3PoolCustomized) (fields rest : List Token),
      populate_pool_data_from_tokens pool fields = .noneR →
      singleInner pool (Token.tuple fields :: rest)
        = .ok (pool, .error (AMMError.batchRequestError pool.address))) := by
  refine ⟨populate_eq_extract, fun pool v => rfl, ?_, ?_⟩
  · intro amms idx fields p hidx hpop
    rcases h0 : fields[0]? with _ | f0
    · rw [populate_panic_of_none0 h0] at hpop
      exact absurd hpop (by simp)
    rcases ha : f0.into_address with _ | a
    · exact processRecord_noAddr h0 ha
    by_cases ha0 : a = 0
    · subst ha0
      exact processRecord_zero h0 ha
    · rw [processRecord_entry_pool h0 ha ha0 hidx, hpop]
  · intro pool fields rest hpop
    simp [singleInner, Token.into_tuple, hpop]

/-- C6 witness: a concrete malformed record leaves a concrete pool
untouched in both walks, with the single-pool walk reporting the error. -/
theorem claim_C6_no_partial_update_witness :
    populate_pool_data_from_tokens exPool exRecordBad = .noneR ∧
    processRecord [AMM.uniswapV3PoolCustomized exPool] 0 exRecordBad
      = .ok [AMM.uniswapV3PoolCustomized exPool] ∧
    singleInner exPool [Token.tuple exRecordBad]
      = .ok (exPool, .error (AMMError.batchRequestError exPool.address)) := by
  have h1 : populate_pool_data_from_tokens exPool exRecordBad = .noneR := rfl
  exact ⟨h1,
    claim_C6_no_partial_update.2.2.1
      [AMM.uniswapV3PoolCustomized exPool] 0 exRecordBad exPool rfl h1,
    claim_C6_no_partial_update.2.2.2 exPool exRecordBad [] h1⟩

/-- C3: in a completed walk over an all-tuple decoded array, a record whose
first address field is the zero address leaves the registry entry at its
own position untouched while the walk still advances past every record,
and any other position whose record applies successfully is updated to
exactly its own record's entry-level effect. -/
theorem claim_C3_zero_address_skip :
    ∀ (amms : List AMM) (recs : List Token) (out : List AMM × Nat)
      (i : Nat) (fs : List Token),
      (∀ t ∈ recs, ∃ f, t = Token.tuple f) →
      updateLoop amms 0 recs = .ok out →
      recs[i]? = some (Token.tuple fs) →
      fs[0]? = some (Token.address 0) →
      out.1[i]? = amms[i]? ∧
      out.2 = recs.length ∧
      (∀ (j : Nat) (gs : List Token) (e e2 : AMM),
        recs[j]? = some (Token.tuple gs) → amms[j]? = some e →
        applyRecordEntry e gs = .ok e2 → out.1[j]? = some e2) := by
  intro amms recs out i fs hall h hi h0
  obtain ⟨h1, h2, h3, h4⟩ := updateLoop_frame hall h
  refine ⟨?_, by simpa using h1, ?_⟩
  · rcases he : amms[i]? with _ | e
    · rw [getElem?_none_of_le (h2 ▸ getElem?_none_le he)]
    · obtain ⟨e2, hae, hout⟩ := h4 i fs e hi (by simpa using he)
      have hskip : applyRecordEntry e fs = .ok e := applyRecordEntry_zero h0 rfl
      rw [hskip] at hae
      injection hae with hae
      subst hae
      simpa using hout
  · intro j gs e e2 hjr hje hae
    obtain ⟨e2b, haeb, hout⟩ := h4 j gs e hjr (by simpa using hje)
    rw [hae] at haeb
    injection haeb with haeb
    subst haeb
    simpa using hout

/-- C3 witness: registry positions A, B with B's record carrying the zero
address: B's entry is unchanged after a completed walk. -/
theorem claim_C3_zero_address_skip_witness :
    ([AMM.uniswapV3PoolCustomized exPoolAfter,
      AMM.uniswapV3PoolCustomized exPoolB] : List AMM)[1]?
      = ([AMM.uniswapV3PoolCustomized exPool,
          AMM.uniswapV3PoolCustomized exPoolB] : List AMM)[1]? :=
  (claim_C3_zero_address_skip
    [AMM.uniswapV3PoolCustomized exPool, AMM.uniswapV3PoolCustomized exPoolB]
    [Token.tuple exRecord, Token.tuple exRecordZero]
    ([AMM.uniswapV3PoolCustomized exPoolAfter,
      AMM.uniswapV3PoolCustomized exPoolB], 2)
    1 exRecordZero
    (by
      intro t ht
      simp at ht
      rcases ht with ht | ht
      · exact ⟨exRecord, ht⟩
      · exact ⟨exRecordZero, ht⟩)
    (by rfl) (by rfl) (by rfl)).1

/-- C7: positional integrity: with N all-tuple records against N registry
entries, a completed walk maps the record at index i to the entry at index
i and only there — the new entry is the entry-level effect of record i on
the old entry at i, independent of every other record — and every position
at or beyond the record count keeps its old entry. -/
theorem claim_C7_positional_integrity :
    ∀ (amms : List AMM) (recs : List Token) (out : List AMM × Nat),
      (∀ t ∈ recs, ∃ f, t = Token.tuple f) →
      recs.length = amms.length →
      updateLoop amms 0 recs = .ok out →
      (∀ (i : Nat) (fs : List Token) (e : AMM),
        recs[i]? = some (Token.tuple fs) → amms[i]? = some e →
        ∃ e2, applyRecordEntry e fs = .ok e2 ∧ out.1[i]? = some e2) ∧
      (∀ j, recs.length ≤ j → out.1[j]? = amms[j]?) := by
  intro amms recs out hall _ h
  obtain ⟨_, _, h3, h4⟩ := updateLoop_frame hall h
  constructor
  · intro i fs e hi he
    obtain ⟨e2, hae, hout⟩ := h4 i fs e hi (by simpa using he)
    exact ⟨e2, hae, by simpa using hout⟩
  · intro j hj
    exact h3 j (Or.inr (by omega))

/-- C7 witness: one record against one entry: the entry becomes the
record's own entry-level effect. -/
theorem claim_C7_positional_integrity_witness :
    ∃ e2, applyRecordEntry (AMM.uniswapV3PoolCustomized exPool) exRecord
        = .ok e2 ∧
      ([AMM.uniswapV3PoolCustomized exPoolAfter] : List AMM)[0]? = some e2 :=
  (claim_C7_positional_integrity
    [AMM.uniswapV3PoolCustomized exPool]
    [Token.tuple exRecord]
    ([AMM.uniswapV3PoolCustomized exPoolAfter], 1)
    (by
      intro t ht
      refine ⟨exRecord, ?_⟩
      simpa using ht)
    (by rfl) (by rfl)).1 0 exRecord (AMM.uniswapV3PoolCustomized exPool)
    (by rfl) (by rfl)

/-- C9: a registry entry that is not of the UniswapV3PoolCustomized variant
is left unchanged by a completed walk over an all-tuple decoded array, no
error is returned for its position, and the walk continues past every
record. -/
theorem claim_C9_kind_mismatch_skip :
    ∀ (amms : List AMM) (recs : List Token) (out : List AMM × Nat)
      (j t : Nat),
      (∀ t2 ∈ recs, ∃ f, t2 = Token.tuple f) →
      updateLoop amms 0 recs = .ok out →
      amms[j]? = some (AMM.otherKind t) →
      out.1[j]? = some (AMM.otherKind t) ∧ out.2 = recs.length := by
  intro amms recs out j t hall h hj
  obtain ⟨h1, _, h3, h4⟩ := updateLoop_frame hall h
  refine ⟨?_, by simpa using h1⟩
  by_cases hlt : j < recs.length
  · have hrec : recs[j]? = some recs[j] := List.getElem?_eq_getElem hlt
    obtain ⟨fs, hfs⟩ := hall recs[j] (recs.getElem_mem hlt)
    rw [hfs] at hrec
    obtain ⟨e2, hae, hout⟩ := h4 j fs (AMM.otherKind t) hrec (by simpa using hj)
    rw [applyRecordEntry_otherKind_ok hae] at hout
    simpa using hout
  · rw [h3 j (Or.inr (by omega))]
    exact hj

/-- C9 witness: an entry of another pool kind is unchanged by a walk that
applies one well-formed record. -/
theorem claim_C9_kind_mismatch_skip_witness :
    ([AMM.otherKind 5] : List AMM)[0]? = some (AMM.otherKind 5) ∧
      (1 : Nat) = ([Token.tuple exRecord] : List Token).length :=
  ⟨(claim_C9_kind_mismatch_skip [AMM.otherKind 5] [Token.tuple exRecord]
      ([AMM.otherKind 5], 1) 0 5
      (by
        intro t2 ht2
        refine ⟨exRecord, ?_⟩
        simpa using ht2)
      (by rfl) (by rfl)).1,
    by decide⟩
